import Mathlib

/-!
Verification development for the ATM program `atm_idle.py`.

Shallow embedding conventions:
* Monetary amounts (Python floats used as exact decimal money) are modelled
  as rationals `ℚ`.
* The account dictionary is modelled as an association list with unique keys
  (`Store`); Python dict lookup/assignment become `lookupAcct`/`updateAcct`
  (first-match semantics, which coincides with dict semantics since keys are
  unique), and insertion of a fresh key appends at the end (dicts preserve
  insertion order).
* User text input that the program parses with `float(...)` is modelled as an
  `Option ℚ` argument (`none` = the parse raised `ValueError`).
* `datetime.now().strftime(...)` is an external input, modelled as a `String`
  parameter (`now`); `transfer` performs two `add_transaction` calls and so
  receives two such parameters.
* Persistence (`save_accounts` / `load_accounts`) is modelled through a JSON
  value AST: the disk holds `Option Json` (`none` = `accounts.json` missing).
* The account number passed to an operation comes from `authenticate`, so it
  is present in the store; the embedding reads an absent key as a default
  account, and every theorem about an operation assumes the key is present.
* Each Python operation mutates `accounts` in place and returns early on a
  validation failure; here an operation maps a `World` to a new `World`
  together with `Option ATMError` describing the failure, the error branches
  returning the input world unchanged exactly as the early `return`s do.
-/

structure Transaction where
  time : String
  type : String
  amount : ℚ
  remark : String
  balance : ℚ
deriving DecidableEq

structure Account where
  name : String
  pin : String
  balance : ℚ
  transactions : List Transaction
deriving DecidableEq

instance : Inhabited Account := ⟨⟨"", "", 0, []⟩⟩

abbrev Store := List (String × Account)

/-- Python `accounts[acct_no]` as a partial lookup (`acct_no in accounts`). -/
def lookupAcct : Store → String → Option Account
  | [], _ => none
  | (k, a) :: rest, acct_no => if k = acct_no then some a else lookupAcct rest acct_no

/-- In-place mutation of the account stored under `acct_no` (a no-op when the
key is absent, which never happens in the program's flows). -/
def updateAcct : Store → String → (Account → Account) → Store
  | [], _, _ => []
  | (k, a) :: rest, acct_no, f =>
      if k = acct_no then (k, f a) :: rest else (k, a) :: updateAcct rest acct_no f

/-- Python `accounts[acct_no]` in reading position; total via a default. -/
def getAcct (s : Store) (acct_no : String) : Account :=
  (lookupAcct s acct_no).getD default

/-- JSON value AST used to model the persisted `accounts.json`. -/
inductive Json where
  | str : String → Json
  | num : ℚ → Json
  | arr : List Json → Json
  | obj : List (String × Json) → Json

def encodeTransaction (t : Transaction) : Json :=
  .obj [("time", .str t.time), ("type", .str t.type), ("amount", .num t.amount),
        ("remark", .str t.remark), ("balance", .num t.balance)]

def decodeTransaction : Json → Option Transaction
  | .obj [("time", .str ti), ("type", .str ty), ("amount", .num am),
          ("remark", .str re), ("balance", .num ba)] =>
      some ⟨ti, ty, am, re, ba⟩
  | _ => none

def decodeTransactions : List Json → Option (List Transaction)
  | [] => some []
  | j :: rest =>
      match decodeTransaction j, decodeTransactions rest with
      | some t, some ts => some (t :: ts)
      | _, _ => none

def encodeAccount (a : Account) : Json :=
  .obj [("name", .str a.name), ("pin", .str a.pin), ("balance", .num a.balance),
        ("transactions", .arr (a.transactions.map encodeTransaction))]

def decodeAccount : Json → Option Account
  | .obj [("name", .str na), ("pin", .str pn), ("balance", .num ba),
          ("transactions", .arr txs)] =>
      match decodeTransactions txs with
      | some ts => some ⟨na, pn, ba, ts⟩
      | none => none
  | _ => none

def encodeStore (s : Store) : Json :=
  .obj (s.map (fun p => (p.1, encodeAccount p.2)))

def decodeEntries : List (String × Json) → Option Store
  | [] => some []
  | (k, j) :: rest =>
      match decodeAccount j, decodeEntries rest with
      | some a, some s => some ((k, a) :: s)
      | _, _ => none

def decodeStore : Json → Option Store
  | .obj kvs => decodeEntries kvs
  | _ => none

/-- The program's world: the in-memory account mapping and `accounts.json`. -/
structure World where
  accounts : Store
  disk : Option Json

/-- `save_accounts`: serialize the full mapping and overwrite the snapshot. -/
def save_accounts (w : World) : World :=
  { w with disk := some (encodeStore w.accounts) }

/-- `load_accounts`: empty mapping when the file is missing, otherwise parse
(`none` models a `json.load` failure on a corrupt snapshot). -/
def load_accounts (disk : Option Json) : Option Store :=
  match disk with
  | none => some []
  | some j => decodeStore j

/-- `add_transaction`: append a ledger entry recording the account's current
balance. -/
def add_transaction (accounts : Store) (acct_no tx_type : String) (amount : ℚ)
    (remark now : String) : Store :=
  updateAcct accounts acct_no (fun acct =>
    { acct with transactions := acct.transactions ++
        [{ time := now, type := tx_type, amount := amount, remark := remark,
           balance := acct.balance }] })

inductive ATMError where
  | invalidAmount
  | insufficientFunds
  | unknownDestination
  | wrongPin
  | pinMismatch
  | weakPin
deriving DecidableEq

/-- `create_account`: fails when the id exists, else inserts the new account,
logs `Account Created` and persists; returns the `(ok, message)` pair. -/
def create_account (w : World) (acct_no name pin : String) (initial_balance : ℚ)
    (now : String) : World × Bool × String :=
  if (lookupAcct w.accounts acct_no).isSome then
    (w, false, "Account already exists.")
  else
    let accounts := w.accounts ++
      [(acct_no, { name := name, pin := pin, balance := initial_balance,
                   transactions := [] })]
    let accounts := add_transaction accounts acct_no "Account Created" 0
      "Initial account setup" now
    (save_accounts { w with accounts := accounts }, true, "Account created.")

/-- `deposit`: reject unparseable or non-positive amounts, else add to the
balance, log `Deposit` and persist. -/
def deposit (w : World) (acct_no : String) (amt : Option ℚ) (now : String) :
    World × Option ATMError :=
  match amt with
  | none => (w, some .invalidAmount)
  | some amt =>
      if amt ≤ 0 then (w, some .invalidAmount)
      else
        let accounts := updateAcct w.accounts acct_no
          (fun a => { a with balance := a.balance + amt })
        let accounts := add_transaction accounts acct_no "Deposit" amt
          "Cash deposit" now
        (save_accounts { w with accounts := accounts }, none)

/-- `withdraw`: reject unparseable, non-positive or over-balance amounts, else
subtract from the balance, log `Withdrawal` and persist. -/
def withdraw (w : World) (acct_no : String) (amt : Option ℚ) (now : String) :
    World × Option ATMError :=
  match amt with
  | none => (w, some .invalidAmount)
  | some amt =>
      if amt ≤ 0 then (w, some .invalidAmount)
      else if amt > (getAcct w.accounts acct_no).balance then
        (w, some .insufficientFunds)
      else
        let accounts := updateAcct w.accounts acct_no
          (fun a => { a with balance := a.balance - amt })
        let accounts := add_transaction accounts acct_no "Withdrawal" amt
          "Cash withdrawal" now
        (save_accounts { w with accounts := accounts }, none)

/-- `transfer`: check destination existence, then the amount, then funds; on
success move the money, log `Transfer Out` on the source and `Transfer In` on
the destination (after both balance mutations) and persist once. -/
def transfer (w : World) (acct_no to_acct : String) (amt : Option ℚ)
    (now now2 : String) : World × Option ATMError :=
  if (lookupAcct w.accounts to_acct).isNone then (w, some .unknownDestination)
  else match amt with
  | none => (w, some .invalidAmount)
  | some amt =>
      if amt ≤ 0 then (w, some .invalidAmount)
      else if amt > (getAcct w.accounts acct_no).balance then
        (w, some .insufficientFunds)
      else
        let accounts := updateAcct w.accounts acct_no
          (fun a => { a with balance := a.balance - amt })
        let accounts := updateAcct accounts to_acct
          (fun a => { a with balance := a.balance + amt })
        let accounts := add_transaction accounts acct_no "Transfer Out" amt
          ("To " ++ to_acct) now
        let accounts := add_transaction accounts to_acct "Transfer In" amt
          ("From " ++ acct_no) now2
        (save_accounts { w with accounts := accounts }, none)

/-- Python `str.isdigit` restricted to ASCII digits: non-empty and all digits. -/
def isdigit (s : String) : Bool :=
  !s.toList.isEmpty && s.toList.all Char.isDigit

/-- The PIN policy `change_pin` enforces: all digits and at least 4 long. -/
def pinOk (s : String) : Bool :=
  isdigit s && decide (4 ≤ s.length)

/-- `change_pin`: current PIN must match, new must equal the confirmation and
satisfy the digit policy; then overwrite the PIN, log `PIN Change`, persist. -/
def change_pin (w : World) (acct_no old new confirm now : String) :
    World × Option ATMError :=
  if old ≠ (getAcct w.accounts acct_no).pin then (w, some .wrongPin)
  else if new ≠ confirm then (w, some .pinMismatch)
  else if !isdigit new || decide (new.length < 4) then (w, some .weakPin)
  else
    let accounts := updateAcct w.accounts acct_no (fun a => { a with pin := new })
    let accounts := add_transaction accounts acct_no "PIN Change" 0
      "PIN updated" now
    (save_accounts { w with accounts := accounts }, none)

/-! ## Basic store lemmas -/

theorem lookupAcct_updateAcct_self (s : Store) (k : String) (f : Account → Account) :
    lookupAcct (updateAcct s k f) k = (lookupAcct s k).map f := by
  induction s with
  | nil => rfl
  | cons p rest ih =>
      obtain ⟨k', a⟩ := p
      by_cases h : k' = k <;> simp [updateAcct, lookupAcct, h, ih]

theorem lookupAcct_updateAcct_ne (s : Store) (k k' : String) (f : Account → Account)
    (h : k' ≠ k) : lookupAcct (updateAcct s k f) k' = lookupAcct s k' := by
  induction s with
  | nil => rfl
  | cons p rest ih =>
      obtain ⟨k0, a⟩ := p
      by_cases h0 : k0 = k
      · subst h0
        simp [updateAcct, lookupAcct, Ne.symm h]
      · by_cases h1 : k0 = k' <;> simp [updateAcct, lookupAcct, h0, h1, h, ih]

theorem lookupAcct_mem (s : Store) (k : String) (a : Account)
    (h : lookupAcct s k = some a) : (k, a) ∈ s := by
  induction s with
  | nil => simp [lookupAcct] at h
  | cons p rest ih =>
      obtain ⟨k', a'⟩ := p
      by_cases h' : k' = k
      · subst h'
        simp [lookupAcct] at h
        simp [h]
      · simp [lookupAcct, h'] at h
        exact List.mem_cons_of_mem _ (ih h)

theorem mem_updateAcct (s : Store) (k : String) (f : Account → Account)
    (p : String × Account) (hp : p ∈ updateAcct s k f) :
    p ∈ s ∨ ∃ a, lookupAcct s k = some a ∧ p = (k, f a) := by
  induction s with
  | nil => simp [updateAcct] at hp
  | cons q rest ih =>
      obtain ⟨k', a'⟩ := q
      by_cases h : k' = k
      · subst h
        simp only [updateAcct, if_pos rfl] at hp
        rcases List.mem_cons.mp hp with h1 | h1
        · exact Or.inr ⟨a', by simp [lookupAcct], h1⟩
        · exact Or.inl (List.mem_cons_of_mem _ h1)
      · simp only [updateAcct, if_neg h] at hp
        rcases List.mem_cons.mp hp with h1 | h1
        · exact Or.inl (by simp [h1])
        · rcases ih h1 with h2 | ⟨a, ha, hpa⟩
          · exact Or.inl (List.mem_cons_of_mem _ h2)
          · exact Or.inr ⟨a, by simp [lookupAcct, h, ha], hpa⟩

theorem updateAcct_append_fresh (s : Store) (k : String) (a : Account)
    (f : Account → Account) (h : lookupAcct s k = none) :
    updateAcct (s ++ [(k, a)]) k f = s ++ [(k, f a)] := by
  induction s with
  | nil => simp [updateAcct]
  | cons p rest ih =>
      obtain ⟨k', a'⟩ := p
      by_cases h' : k' = k
      · simp [lookupAcct, h'] at h
      · simp only [lookupAcct, if_neg h'] at h
        simp [updateAcct, h', ih h]

/-! ## Serialization round-trip -/

theorem decodeTransaction_encodeTransaction (t : Transaction) :
    decodeTransaction (encodeTransaction t) = some t := rfl

theorem decodeTransactions_map_encode (l : List Transaction) :
    decodeTransactions (l.map encodeTransaction) = some l := by
  induction l with
  | nil => rfl
  | cons t rest ih =>
      simp [decodeTransactions, decodeTransaction_encodeTransaction, ih]

theorem decodeAccount_encodeAccount (a : Account) :
    decodeAccount (encodeAccount a) = some a := by
  simp [encodeAccount, decodeAccount, decodeTransactions_map_encode]

theorem decodeStore_encodeStore (s : Store) :
    decodeStore (encodeStore s) = some s := by
  induction s with
  | nil => rfl
  | cons p rest ih =>
      obtain ⟨k, a⟩ := p
      simp only [encodeStore, decodeStore, List.map_cons] at ih ⊢
      simp [decodeEntries, decodeAccount_encodeAccount, ih]

/-! ## Concrete fixtures (the demo accounts from `main`) -/

def acctAlice : Account :=
  { name := "Alice", pin := "1234", balance := 5000, transactions := [] }

def acctBob : Account :=
  { name := "Bob", pin := "2345", balance := 3000, transactions := [] }

def worldEx : World :=
  { accounts := [("1001", acctAlice), ("1002", acctBob)], disk := none }

/-! ## Claims -/

/-- C8: saving the account mapping and then loading it back yields exactly the
mapping that was saved: same account ids in the same order, same holder names,
PINs and balances, and each ledger with the same entries in the same order. -/
theorem save_load_roundtrip (accounts : Store) (disk : Option Json) :
    load_accounts (save_accounts { accounts := accounts, disk := disk }).disk =
      some accounts := by
  simp [save_accounts, load_accounts, decodeStore_encodeStore]

/-- C1: for an account holding balance `a.balance`, withdrawing `0 < amt ≤
a.balance` succeeds, leaves the balance at `a.balance - amt`, and appends
exactly one `Withdrawal` ledger entry of amount `amt` recording the new
balance; withdrawing `amt > a.balance` (balances being non-negative) fails
with `InsufficientFunds` and changes nothing. -/
theorem withdraw_spec (w : World) (acct_no now : String) (a : Account) (amt : ℚ)
    (ha : lookupAcct w.accounts acct_no = some a) :
    (0 < amt → amt ≤ a.balance →
      (withdraw w acct_no (some amt) now).2 = none ∧
      lookupAcct (withdraw w acct_no (some amt) now).1.accounts acct_no =
        some { a with
               balance := a.balance - amt,
               transactions := a.transactions ++
                 [{ time := now, type := "Withdrawal", amount := amt,
                    remark := "Cash withdrawal", balance := a.balance - amt }] }) ∧
    (0 ≤ a.balance → a.balance < amt →
      withdraw w acct_no (some amt) now = (w, some ATMError.insufficientFunds)) := by
  have hA : getAcct w.accounts acct_no = a := by simp [getAcct, ha]
  constructor
  · intro h1 h2
    have hle : ¬ amt ≤ 0 := not_le.mpr h1
    have hgt : ¬ amt > (getAcct w.accounts acct_no).balance := by
      rw [hA]; exact not_lt.mpr h2
    simp only [withdraw, if_neg hle, if_neg hgt]
    refine ⟨trivial, ?_⟩
    simp [save_accounts, add_transaction, lookupAcct_updateAcct_self, ha]
  · intro h0 h2
    have hle : ¬ amt ≤ 0 := not_le.mpr (lt_of_le_of_lt h0 h2)
    have hgt : amt > (getAcct w.accounts acct_no).balance := by rw [hA]; exact h2
    simp only [withdraw, if_neg hle, if_pos hgt]

theorem withdraw_spec_witness :
    ((withdraw worldEx "1001" (some 200) "t").2 = none ∧
      lookupAcct (withdraw worldEx "1001" (some 200) "t").1.accounts "1001" =
        some { acctAlice with
               balance := acctAlice.balance - 200,
               transactions := acctAlice.transactions ++
                 [{ time := "t", type := "Withdrawal", amount := 200,
                    remark := "Cash withdrawal",
                    balance := acctAlice.balance - 200 }] }) ∧
    withdraw worldEx "1001" (some 6000) "t" =
      (worldEx, some ATMError.insufficientFunds) :=
  ⟨(withdraw_spec worldEx "1001" "t" acctAlice 200 rfl).1 (by norm_num)
    (by norm_num [acctAlice]),
   (withdraw_spec worldEx "1001" "t" acctAlice 6000 rfl).2 (by norm_num [acctAlice])
    (by norm_num [acctAlice])⟩

/-- C3: for an account holding balance `a.balance`, depositing a parsed amount
`d > 0` succeeds, leaves the balance at `a.balance + d`, and appends exactly
one `Deposit` ledger entry of amount `d` recording the new balance; an
unparseable amount or one with `d ≤ 0` fails with `InvalidAmount` and changes
nothing. -/
theorem deposit_spec (w : World) (acct_no now : String) (a : Account) (amt : Option ℚ)
    (ha : lookupAcct w.accounts acct_no = some a) :
    (∀ d : ℚ, amt = some d → 0 < d →
      (deposit w acct_no amt now).2 = none ∧
      lookupAcct (deposit w acct_no amt now).1.accounts acct_no =
        some { a with
               balance := a.balance + d,
               transactions := a.transactions ++
                 [{ time := now, type := "Deposit", amount := d,
                    remark := "Cash deposit", balance := a.balance + d }] }) ∧
    (amt = none → deposit w acct_no amt now = (w, some ATMError.invalidAmount)) ∧
    (∀ d : ℚ, amt = some d → d ≤ 0 →
      deposit w acct_no amt now = (w, some ATMError.invalidAmount)) := by
  refine ⟨?_, ?_, ?_⟩
  · intro d hd h1
    subst hd
    have hle : ¬ d ≤ 0 := not_le.mpr h1
    simp only [deposit, if_neg hle]
    refine ⟨trivial, ?_⟩
    simp [save_accounts, add_transaction, lookupAcct_updateAcct_self, ha]
  · intro hd
    subst hd
    rfl
  · intro d hd h1
    subst hd
    simp only [deposit, if_pos h1]

theorem deposit_spec_witness :
    ((deposit worldEx "1001" (some 200) "t").2 = none ∧
      lookupAcct (deposit worldEx "1001" (some 200) "t").1.accounts "1001" =
        some { acctAlice with
               balance := acctAlice.balance + 200,
               transactions := acctAlice.transactions ++
                 [{ time := "t", type := "Deposit", amount := 200,
                    remark := "Cash deposit",
                    balance := acctAlice.balance + 200 }] }) ∧
    deposit worldEx "1001" none "t" = (worldEx, some ATMError.invalidAmount) ∧
    deposit worldEx "1001" (some (-5)) "t" = (worldEx, some ATMError.invalidAmount) :=
  ⟨(deposit_spec worldEx "1001" "t" acctAlice (some 200) rfl).1 200 rfl (by norm_num),
   (deposit_spec worldEx "1001" "t" acctAlice none rfl).2.1 rfl,
   (deposit_spec worldEx "1001" "t" acctAlice (some (-5)) rfl).2.2 (-5) rfl
     (by norm_num)⟩

/-- C9: creating an account under an id already present fails with
`AlreadyExists` and leaves the whole world (store and persisted snapshot)
unchanged; creating under a fresh id appends the new account with the given
holder name, PIN and initial balance, its ledger holding exactly one
`Account Created` entry of amount 0, and persists exactly that store. -/
theorem create_account_spec (w : World) (acct_no name pin now : String) (init : ℚ) :
    (∀ a, lookupAcct w.accounts acct_no = some a →
      create_account w acct_no name pin init now =
        (w, false, "Account already exists.")) ∧
    (lookupAcct w.accounts acct_no = none →
      (create_account w acct_no name pin init now).2.1 = true ∧
      (create_account w acct_no name pin init now).1.accounts =
        w.accounts ++ [(acct_no,
          { name := name, pin := pin, balance := init,
            transactions := [{ time := now, type := "Account Created", amount := 0,
                               remark := "Initial account setup",
                               balance := init }] })] ∧
      (create_account w acct_no name pin init now).1.disk =
        some (encodeStore (create_account w acct_no name pin init now).1.accounts)) := by
  constructor
  · intro a ha
    have h : (lookupAcct w.accounts acct_no).isSome = true := by simp [ha]
    simp only [create_account, if_pos h]
  · intro hnone
    have h : ¬ (lookupAcct w.accounts acct_no).isSome = true := by simp [hnone]
    have hacc : (create_account w acct_no name pin init now).1.accounts =
        w.accounts ++ [(acct_no,
          { name := name, pin := pin, balance := init,
            transactions := [{ time := now, type := "Account Created", amount := 0,
                               remark := "Initial account setup",
                               balance := init }] })] := by
      simp only [create_account, if_neg h, save_accounts, add_transaction]
      rw [updateAcct_append_fresh _ _ _ _ hnone]
      simp
    refine ⟨by simp only [create_account, if_neg h], hacc, ?_⟩
    rw [hacc]
    simp only [create_account, if_neg h, save_accounts, add_transaction]
    rw [updateAcct_append_fresh _ _ _ _ hnone]
    simp

theorem create_account_spec_witness :
    create_account worldEx "1001" "Mallory" "9999" 100 "t" =
      (worldEx, false, "Account already exists.") ∧
    ((create_account worldEx "1003" "Carol" "4567" 100 "t").2.1 = true ∧
      (create_account worldEx "1003" "Carol" "4567" 100 "t").1.accounts =
        worldEx.accounts ++ [("1003",
          { name := "Carol", pin := "4567", balance := 100,
            transactions := [{ time := "t", type := "Account Created", amount := 0,
                               remark := "Initial account setup",
                               balance := 100 }] })] ∧
      (create_account worldEx "1003" "Carol" "4567" 100 "t").1.disk =
        some (encodeStore (create_account worldEx "1003" "Carol" "4567" 100 "t").1.accounts)) :=
  ⟨(create_account_spec worldEx "1001" "Mallory" "9999" "t" 100).1 acctAlice rfl,
   (create_account_spec worldEx "1003" "Carol" "4567" "t" 100).2 rfl⟩

/-- C2: transferring `0 < t ≤ a.balance` from account `src` (holding `a`) to a
different account `dst` (holding `b`) succeeds, leaves `src` at `a.balance - t`
and `dst` at `b.balance + t`, and appends exactly one `Transfer Out` entry to
`src` and one `Transfer In` entry to `dst`, both of amount `t`, each recording
that account's balance after both mutations. -/
theorem transfer_spec (w : World) (src dst now now2 : String) (a b : Account) (t : ℚ)
    (ha : lookupAcct w.accounts src = some a) (hb : lookupAcct w.accounts dst = some b)
    (hne : src ≠ dst) (h1 : 0 < t) (h2 : t ≤ a.balance) :
    (transfer w src dst (some t) now now2).2 = none ∧
    lookupAcct (transfer w src dst (some t) now now2).1.accounts src =
      some { a with
             balance := a.balance - t,
             transactions := a.transactions ++
               [{ time := now, type := "Transfer Out", amount := t,
                  remark := "To " ++ dst, balance := a.balance - t }] } ∧
    lookupAcct (transfer w src dst (some t) now now2).1.accounts dst =
      some { b with
             balance := b.balance + t,
             transactions := b.transactions ++
               [{ time := now2, type := "Transfer In", amount := t,
                  remark := "From " ++ src, balance := b.balance + t }] } := by
  have hA : getAcct w.accounts src = a := by simp [getAcct, ha]
  have hdst : ¬ (lookupAcct w.accounts dst).isNone = true := by simp [hb]
  have hle : ¬ t ≤ 0 := not_le.mpr h1
  have hgt : ¬ t > (getAcct w.accounts src).balance := by
    rw [hA]; exact not_lt.mpr h2
  have hne' : dst ≠ src := Ne.symm hne
  simp only [transfer, if_neg hdst, if_neg hle, if_neg hgt, save_accounts,
    add_transaction]
  refine ⟨trivial, ?_, ?_⟩
  · rw [lookupAcct_updateAcct_ne _ _ _ _ hne, lookupAcct_updateAcct_self,
      lookupAcct_updateAcct_ne _ _ _ _ hne, lookupAcct_updateAcct_self, ha]
    rfl
  · rw [lookupAcct_updateAcct_self, lookupAcct_updateAcct_ne _ _ _ _ hne',
      lookupAcct_updateAcct_self, lookupAcct_updateAcct_ne _ _ _ _ hne', hb]
    rfl

theorem transfer_spec_witness :
    (transfer worldEx "1001" "1002" (some 100) "t" "u").2 = none ∧
    lookupAcct (transfer worldEx "1001" "1002" (some 100) "t" "u").1.accounts "1001" =
      some { acctAlice with
             balance := acctAlice.balance - 100,
             transactions := acctAlice.transactions ++
               [{ time := "t", type := "Transfer Out", amount := 100,
                  remark := "To " ++ "1002",
                  balance := acctAlice.balance - 100 }] } ∧
    lookupAcct (transfer worldEx "1001" "1002" (some 100) "t" "u").1.accounts "1002" =
      some { acctBob with
             balance := acctBob.balance + 100,
             transactions := acctBob.transactions ++
               [{ time := "u", type := "Transfer In", amount := 100,
                  remark := "From " ++ "1001",
                  balance := acctBob.balance + 100 }] } :=
  transfer_spec worldEx "1001" "1002" "t" "u" acctAlice acctBob 100 rfl rfl
    (by decide) (by norm_num) (by norm_num [acctAlice])

/-- C10: a self-transfer of `0 < t ≤ a.balance` is accepted by the code: the
account's balance is unchanged, and exactly two ledger entries are appended to
its own ledger, first a `Transfer Out` and then a `Transfer In`, both of
amount `t` and both recording the unchanged balance. -/
theorem transfer_self_spec (w : World) (acct_no now now2 : String) (a : Account) (t : ℚ)
    (ha : lookupAcct w.accounts acct_no = some a) (h1 : 0 < t) (h2 : t ≤ a.balance) :
    (transfer w acct_no acct_no (some t) now now2).2 = none ∧
    lookupAcct (transfer w acct_no acct_no (some t) now now2).1.accounts acct_no =
      some { a with
             transactions := a.transactions ++
               [{ time := now, type := "Transfer Out", amount := t,
                  remark := "To " ++ acct_no, balance := a.balance },
                { time := now2, type := "Transfer In", amount := t,
                  remark := "From " ++ acct_no, balance := a.balance }] } := by
  have hA : getAcct w.accounts acct_no = a := by simp [getAcct, ha]
  have hdst : ¬ (lookupAcct w.accounts acct_no).isNone = true := by simp [ha]
  have hle : ¬ t ≤ 0 := not_le.mpr h1
  have hgt : ¬ t > (getAcct w.accounts acct_no).balance := by
    rw [hA]; exact not_lt.mpr h2
  simp only [transfer, if_neg hdst, if_neg hle, if_neg hgt, save_accounts,
    add_transaction]
  refine ⟨trivial, ?_⟩
  rw [lookupAcct_updateAcct_self, lookupAcct_updateAcct_self,
    lookupAcct_updateAcct_self, lookupAcct_updateAcct_self, ha]
  simp

theorem transfer_self_spec_witness :
    (transfer worldEx "1001" "1001" (some 100) "t" "u").2 = none ∧
    lookupAcct (transfer worldEx "1001" "1001" (some 100) "t" "u").1.accounts "1001" =
      some { acctAlice with
             transactions := acctAlice.transactions ++
               [{ time := "t", type := "Transfer Out", amount := 100,
                  remark := "To " ++ "1001", balance := acctAlice.balance },
                { time := "u", type := "Transfer In", amount := 100,
                  remark := "From " ++ "1001", balance := acctAlice.balance }] } :=
  transfer_self_spec worldEx "1001" "t" "u" acctAlice 100 rfl (by norm_num)
    (by norm_num [acctAlice])


/-- Every balance in the store is non-negative. -/
def allNonneg (s : Store) : Prop := ∀ p ∈ s, 0 ≤ p.2.balance

theorem allNonneg_updateAcct (s : Store) (k : String) (f : Account → Account)
    (h : allNonneg s)
    (hf : ∀ a, lookupAcct s k = some a → 0 ≤ (f a).balance) :
    allNonneg (updateAcct s k f) := by
  intro p hp
  rcases mem_updateAcct s k f p hp with h1 | ⟨a, ha, rfl⟩
  · exact h p h1
  · exact hf a ha

theorem allNonneg_add_transaction (s : Store) (k ty : String) (amt : ℚ)
    (re now : String) (h : allNonneg s) :
    allNonneg (add_transaction s k ty amt re now) := by
  refine allNonneg_updateAcct s k _ h ?_
  intro a ha
  exact h (k, a) (lookupAcct_mem s k a ha)

/-- C4: starting from a store whose balances are all non-negative, a single
withdraw or transfer — succeeding or failing, on any input — leaves every
balance in the store non-negative. -/
theorem nonneg_preserved (w : World) (acct_no to_acct : String) (amt : Option ℚ)
    (now now2 : String) (h : allNonneg w.accounts) :
    allNonneg (withdraw w acct_no amt now).1.accounts ∧
    allNonneg (transfer w acct_no to_acct amt now now2).1.accounts := by
  constructor
  · cases amt with
    | none => exact h
    | some amt =>
        by_cases hle : amt ≤ 0
        · simp only [withdraw, if_pos hle]; exact h
        · by_cases hgt : amt > (getAcct w.accounts acct_no).balance
          · simp only [withdraw, if_neg hle, if_pos hgt]; exact h
          · simp only [withdraw, if_neg hle, if_neg hgt, save_accounts]
            refine allNonneg_add_transaction _ _ _ _ _ _ ?_
            refine allNonneg_updateAcct _ _ _ h ?_
            intro a ha
            have hbal : amt ≤ a.balance := by
              have hx := not_lt.mp hgt
              rw [getAcct, ha] at hx
              exact hx
            exact sub_nonneg.mpr hbal
  · by_cases hdst : (lookupAcct w.accounts to_acct).isNone = true
    · simp only [transfer, if_pos hdst]; exact h
    · cases amt with
      | none => simp only [transfer, if_neg hdst]; exact h
      | some amt =>
          by_cases hle : amt ≤ 0
          · simp only [transfer, if_neg hdst, if_pos hle]; exact h
          · by_cases hgt : amt > (getAcct w.accounts acct_no).balance
            · simp only [transfer, if_neg hdst, if_neg hle, if_pos hgt]; exact h
            · simp only [transfer, if_neg hdst, if_neg hle, if_neg hgt, save_accounts]
              have hsub : allNonneg (updateAcct w.accounts acct_no
                  (fun a => { a with balance := a.balance - amt })) := by
                refine allNonneg_updateAcct _ _ _ h ?_
                intro a ha
                have hbal : amt ≤ a.balance := by
                  have hx := not_lt.mp hgt
                  rw [getAcct, ha] at hx
                  exact hx
                exact sub_nonneg.mpr hbal
              have hadd : allNonneg (updateAcct (updateAcct w.accounts acct_no
                  (fun a => { a with balance := a.balance - amt })) to_acct
                  (fun a => { a with balance := a.balance + amt })) := by
                refine allNonneg_updateAcct _ _ _ hsub ?_
                intro b hb
                have hb0 : 0 ≤ b.balance := hsub (to_acct, b) (lookupAcct_mem _ _ _ hb)
                exact add_nonneg hb0 (le_of_lt (not_le.mp hle))
              exact allNonneg_add_transaction _ _ _ _ _ _
                (allNonneg_add_transaction _ _ _ _ _ _ hadd)

theorem nonneg_preserved_witness :
    allNonneg (withdraw worldEx "1001" (some 200) "t").1.accounts ∧
    allNonneg (transfer worldEx "1001" "1002" (some 200) "t" "u").1.accounts :=
  nonneg_preserved worldEx "1001" "1002" (some 200) "t" "u"
    (by simp only [allNonneg]; decide)

/-- The weak-PIN guard tested by `change_pin` is exactly the negation of the
PIN policy `pinOk`. -/
theorem guard_eq_not_pinOk (s : String) :
    (!isdigit s || decide (s.length < 4)) = !pinOk s := by
  by_cases hd : isdigit s = true
  · by_cases hl : s.length < 4
    · simp [pinOk, hd, hl, Nat.not_le.mpr hl]
    · simp [pinOk, hd, hl, not_lt.mp hl]
  · have hd' : isdigit s = false := by
      cases hh : isdigit s
      · rfl
      · exact absurd hh hd
    simp [pinOk, hd']

/-- C6: `change_pin` checks the current PIN, then the confirmation, then the
policy, in that order, failing with `WrongPin`, `Mismatch` and `WeakPin`
respectively and leaving the world untouched; when all three pass it installs
the new PIN and appends exactly one `PIN Change` ledger entry of amount 0. -/
theorem change_pin_spec (w : World) (acct_no old new confirm now : String)
    (a : Account) (ha : lookupAcct w.accounts acct_no = some a) :
    (old ≠ a.pin →
      change_pin w acct_no old new confirm now = (w, some ATMError.wrongPin)) ∧
    (old = a.pin → new ≠ confirm →
      change_pin w acct_no old new confirm now = (w, some ATMError.pinMismatch)) ∧
    (old = a.pin → new = confirm → pinOk new = false →
      change_pin w acct_no old new confirm now = (w, some ATMError.weakPin)) ∧
    (old = a.pin → new = confirm → pinOk new = true →
      (change_pin w acct_no old new confirm now).2 = none ∧
      lookupAcct (change_pin w acct_no old new confirm now).1.accounts acct_no =
        some { a with
               pin := new,
               transactions := a.transactions ++
                 [{ time := now, type := "PIN Change", amount := 0,
                    remark := "PIN updated", balance := a.balance }] }) := by
  have hA : getAcct w.accounts acct_no = a := by simp [getAcct, ha]
  refine ⟨?_, ?_, ?_, ?_⟩
  · intro h
    have h' : old ≠ (getAcct w.accounts acct_no).pin := by rw [hA]; exact h
    simp only [change_pin, if_pos h']
  · intro h hmm
    have h' : ¬ old ≠ (getAcct w.accounts acct_no).pin := by rw [hA]; simpa using h
    simp only [change_pin, if_neg h', if_pos hmm]
  · intro h hc hw
    have h' : ¬ old ≠ (getAcct w.accounts acct_no).pin := by rw [hA]; simpa using h
    have hc' : ¬ new ≠ confirm := by simpa using hc
    have hg : (!isdigit new || decide (new.length < 4)) = true := by
      rw [guard_eq_not_pinOk, hw]; rfl
    simp only [change_pin, if_neg h', if_neg hc', if_pos hg]
  · intro h hc hok
    have h' : ¬ old ≠ (getAcct w.accounts acct_no).pin := by rw [hA]; simpa using h
    have hc' : ¬ new ≠ confirm := by simpa using hc
    have hg : ¬ (!isdigit new || decide (new.length < 4)) = true := by
      rw [guard_eq_not_pinOk, hok]; simp
    simp only [change_pin, if_neg h', if_neg hc', if_neg hg, save_accounts,
      add_transaction]
    refine ⟨trivial, ?_⟩
    rw [lookupAcct_updateAcct_self, lookupAcct_updateAcct_self, ha]
    rfl

theorem change_pin_spec_witness :
    change_pin worldEx "1001" "9999" "5678" "5678" "t" =
      (worldEx, some ATMError.wrongPin) ∧
    change_pin worldEx "1001" "1234" "5678" "5679" "t" =
      (worldEx, some ATMError.pinMismatch) ∧
    change_pin worldEx "1001" "1234" "12" "12" "t" =
      (worldEx, some ATMError.weakPin) ∧
    ((change_pin worldEx "1001" "1234" "5678" "5678" "t").2 = none ∧
      lookupAcct (change_pin worldEx "1001" "1234" "5678" "5678" "t").1.accounts
          "1001" =
        some { acctAlice with
               pin := "5678",
               transactions := acctAlice.transactions ++
                 [{ time := "t", type := "PIN Change", amount := 0,
                    remark := "PIN updated", balance := acctAlice.balance }] }) :=
  ⟨(change_pin_spec worldEx "1001" "9999" "5678" "5678" "t" acctAlice rfl).1
     (by decide),
   (change_pin_spec worldEx "1001" "1234" "5678" "5679" "t" acctAlice rfl).2.1
     (by decide) (by decide),
   (change_pin_spec worldEx "1001" "1234" "12" "12" "t" acctAlice rfl).2.2.1
     (by decide) (by decide) (by decide),
   (change_pin_spec worldEx "1001" "1234" "5678" "5678" "t" acctAlice rfl).2.2.2
     (by decide) (by decide) (by decide)⟩

/-- Every PIN in the store satisfies the policy enforced by `change_pin`. -/
def allPinsOk (s : Store) : Prop := ∀ p ∈ s, pinOk p.2.pin = true

theorem allPinsOk_updateAcct (s : Store) (k : String) (f : Account → Account)
    (h : allPinsOk s)
    (hf : ∀ a, lookupAcct s k = some a → pinOk (f a).pin = true) :
    allPinsOk (updateAcct s k f) := by
  intro p hp
  rcases mem_updateAcct s k f p hp with h1 | ⟨a, ha, rfl⟩
  · exact h p h1
  · exact hf a ha

theorem allPinsOk_add_transaction (s : Store) (k ty : String) (amt : ℚ)
    (re now : String) (h : allPinsOk s) :
    allPinsOk (add_transaction s k ty amt re now) := by
  refine allPinsOk_updateAcct s k _ h ?_
  intro a ha
  exact h (k, a) (lookupAcct_mem s k a ha)

/-- C5 counterexample: `create_account` performs no PIN validation, so a
single operation from the empty store reaches a store whose only account has
the one-character PIN "1", which is not an all-digits string of length ≥ 4. -/
theorem create_account_weak_pin_counterexample :
    lookupAcct (create_account ⟨[], none⟩ "1001" "Alice" "1" 0 "t").1.accounts
        "1001" =
      some { name := "Alice", pin := "1", balance := 0,
             transactions := [{ time := "t", type := "Account Created",
                                amount := 0, remark := "Initial account setup",
                                balance := 0 }] } ∧
    pinOk "1" = false := by
  refine ⟨?_, ?_⟩
  · decide
  · decide

/-- C5 amended: deposit, withdraw, transfer and change-PIN preserve the
invariant that every stored PIN is an all-digits string of length ≥ 4, and
create-account preserves it exactly when the PIN it is handed already
satisfies the policy — creation itself does not validate the PIN, so the
invariant holds at every reachable point only under that proviso. -/
theorem pins_preserved (w : World)
    (acct_no to_acct old new confirm name pin : String)
    (amt : Option ℚ) (init : ℚ) (now now2 : String) (h : allPinsOk w.accounts) :
    allPinsOk (deposit w acct_no amt now).1.accounts ∧
    allPinsOk (withdraw w acct_no amt now).1.accounts ∧
    allPinsOk (transfer w acct_no to_acct amt now now2).1.accounts ∧
    allPinsOk (change_pin w acct_no old new confirm now).1.accounts ∧
    (pinOk pin = true →
      allPinsOk (create_account w acct_no name pin init now).1.accounts) := by
  have hkeep : ∀ (k : String) (f : Account → Account),
      (∀ a, (f a).pin = a.pin) → allPinsOk w.accounts →
      allPinsOk (updateAcct w.accounts k f) := by
    intro k f hf hall
    refine allPinsOk_updateAcct _ _ _ hall ?_
    intro a ha
    rw [hf a]
    exact hall (k, a) (lookupAcct_mem _ _ _ ha)
  refine ⟨?_, ?_, ?_, ?_, ?_⟩
  · cases amt with
    | none => exact h
    | some amt =>
        by_cases hle : amt ≤ 0
        · simp only [deposit, if_pos hle]; exact h
        · simp only [deposit, if_neg hle, save_accounts]
          exact allPinsOk_add_transaction _ _ _ _ _ _
            (hkeep _ _ (fun a => rfl) h)
  · cases amt with
    | none => exact h
    | some amt =>
        by_cases hle : amt ≤ 0
        · simp only [withdraw, if_pos hle]; exact h
        · by_cases hgt : amt > (getAcct w.accounts acct_no).balance
          · simp only [withdraw, if_neg hle, if_pos hgt]; exact h
          · simp only [withdraw, if_neg hle, if_neg hgt, save_accounts]
            exact allPinsOk_add_transaction _ _ _ _ _ _
              (hkeep _ _ (fun a => rfl) h)
  · by_cases hdst : (lookupAcct w.accounts to_acct).isNone = true
    · simp only [transfer, if_pos hdst]; exact h
    · cases amt with
      | none => simp only [transfer, if_neg hdst]; exact h
      | some amt =>
          by_cases hle : amt ≤ 0
          · simp only [transfer, if_neg hdst, if_pos hle]; exact h
          · by_cases hgt : amt > (getAcct w.accounts acct_no).balance
            · simp only [transfer, if_neg hdst, if_neg hle, if_pos hgt]; exact h
            · simp only [transfer, if_neg hdst, if_neg hle, if_neg hgt,
                save_accounts]
              have h1 : allPinsOk (updateAcct w.accounts acct_no
                  (fun a => { a with balance := a.balance - amt })) :=
                hkeep _ _ (fun a => rfl) h
              have h2 : allPinsOk (updateAcct (updateAcct w.accounts acct_no
                  (fun a => { a with balance := a.balance - amt })) to_acct
                  (fun a => { a with balance := a.balance + amt })) := by
                refine allPinsOk_updateAcct _ _ _ h1 ?_
                intro b hb
                exact h1 (to_acct, b) (lookupAcct_mem _ _ _ hb)
              exact allPinsOk_add_transaction _ _ _ _ _ _
                (allPinsOk_add_transaction _ _ _ _ _ _ h2)
  · by_cases hw : old ≠ (getAcct w.accounts acct_no).pin
    · simp only [change_pin, if_pos hw]; exact h
    · by_cases hc : new ≠ confirm
      · simp only [change_pin, if_neg hw, if_pos hc]; exact h
      · by_cases hg : (!isdigit new || decide (new.length < 4)) = true
        · simp only [change_pin, if_neg hw, if_neg hc, if_pos hg]; exact h
        · have hok : pinOk new = true := by
            cases hh : pinOk new
            · exact absurd (by rw [guard_eq_not_pinOk, hh]; rfl) hg
            · rfl
          simp only [change_pin, if_neg hw, if_neg hc, if_neg hg, save_accounts]
          refine allPinsOk_add_transaction _ _ _ _ _ _ ?_
          refine allPinsOk_updateAcct _ _ _ h ?_
          intro a _
          exact hok
  · intro hpin
    by_cases hex : (lookupAcct w.accounts acct_no).isSome = true
    · simp only [create_account, if_pos hex]; exact h
    · simp only [create_account, if_neg hex, save_accounts]
      refine allPinsOk_add_transaction _ _ _ _ _ _ ?_
      intro p hp
      rcases List.mem_append.mp hp with h1 | h1
      · exact h p h1
      · rcases List.mem_singleton.mp h1 with rfl
        exact hpin

theorem pins_preserved_witness :
    allPinsOk (deposit worldEx "1001" (some 200) "t").1.accounts ∧
    allPinsOk (withdraw worldEx "1001" (some 200) "t").1.accounts ∧
    allPinsOk (transfer worldEx "1001" "1002" (some 200) "t" "u").1.accounts ∧
    allPinsOk (change_pin worldEx "1001" "1234" "5678" "5678" "t").1.accounts ∧
    (pinOk "4567" = true →
      allPinsOk (create_account worldEx "1001" "Carol" "4567" 100 "t").1.accounts) :=
  pins_preserved worldEx "1001" "1002" "1234" "5678" "5678" "Carol" "4567"
    (some 200) 100 "t" "u" (by simp only [allPinsOk]; decide)

/-- C7: every validation failure of create-account, deposit, withdraw,
transfer or change-PIN returns with the world — the account store and the
persisted snapshot — exactly as it was: no balance mutated, no ledger entry
appended, no PIN changed, nothing persisted. -/
theorem errors_leave_world_unchanged (w : World)
    (acct_no to_acct old new confirm name pin now now2 : String)
    (amt : Option ℚ) (init : ℚ) :
    ((create_account w acct_no name pin init now).2.1 = false →
      (create_account w acct_no name pin init now).1 = w) ∧
    (∀ e, (deposit w acct_no amt now).2 = some e →
      (deposit w acct_no amt now).1 = w) ∧
    (∀ e, (withdraw w acct_no amt now).2 = some e →
      (withdraw w acct_no amt now).1 = w) ∧
    (∀ e, (transfer w acct_no to_acct amt now now2).2 = some e →
      (transfer w acct_no to_acct amt now now2).1 = w) ∧
    (∀ e, (change_pin w acct_no old new confirm now).2 = some e →
      (change_pin w acct_no old new confirm now).1 = w) := by
  refine ⟨?_, ?_, ?_, ?_, ?_⟩
  · by_cases hex : (lookupAcct w.accounts acct_no).isSome = true
    · intro _
      simp only [create_account, if_pos hex]
    · intro hfalse
      simp only [create_account, if_neg hex] at hfalse
      exact Bool.noConfusion hfalse
  · intro e he
    cases amt with
    | none => rfl
    | some amt =>
        by_cases hle : amt ≤ 0
        · simp only [deposit, if_pos hle]
        · simp only [deposit, if_neg hle] at he
          exact Option.noConfusion he
  · intro e he
    cases amt with
    | none => rfl
    | some amt =>
        by_cases hle : amt ≤ 0
        · simp only [withdraw, if_pos hle]
        · by_cases hgt : amt > (getAcct w.accounts acct_no).balance
          · simp only [withdraw, if_neg hle, if_pos hgt]
          · simp only [withdraw, if_neg hle, if_neg hgt] at he
            exact Option.noConfusion he
  · intro e he
    by_cases hdst : (lookupAcct w.accounts to_acct).isNone = true
    · simp only [transfer, if_pos hdst]
    · cases amt with
      | none => simp only [transfer, if_neg hdst]
      | some amt =>
          by_cases hle : amt ≤ 0
          · simp only [transfer, if_neg hdst, if_pos hle]
          · by_cases hgt : amt > (getAcct w.accounts acct_no).balance
            · simp only [transfer, if_neg hdst, if_neg hle, if_pos hgt]
            · simp only [transfer, if_neg hdst, if_neg hle, if_neg hgt] at he
              exact Option.noConfusion he
  · intro e he
    by_cases hw : old ≠ (getAcct w.accounts acct_no).pin
    · simp only [change_pin, if_pos hw]
    · by_cases hc : new ≠ confirm
      · simp only [change_pin, if_neg hw, if_pos hc]
      · by_cases hg : (!isdigit new || decide (new.length < 4)) = true
        · simp only [change_pin, if_neg hw, if_neg hc, if_pos hg]
        · simp only [change_pin, if_neg hw, if_neg hc, if_neg hg] at he
          exact Option.noConfusion he

theorem errors_leave_world_unchanged_witness :
    (create_account worldEx "1001" "Mallory" "9999" 100 "t").1 = worldEx ∧
    (deposit worldEx "1001" none "t").1 = worldEx ∧
    (withdraw worldEx "1001" (some 6000) "t").1 = worldEx ∧
    (transfer worldEx "1001" "9999" (some 10) "t" "u").1 = worldEx ∧
    (change_pin worldEx "1001" "0000" "5678" "5678" "t").1 = worldEx :=
  ⟨(errors_leave_world_unchanged worldEx "1001" "9999" "0000" "5678" "5678"
      "Mallory" "9999" "t" "u" none 100).1 rfl,
   (errors_leave_world_unchanged worldEx "1001" "9999" "0000" "5678" "5678"
      "Mallory" "9999" "t" "u" none 100).2.1 ATMError.invalidAmount rfl,
   (errors_leave_world_unchanged worldEx "1001" "9999" "0000" "5678" "5678"
      "Mallory" "9999" "t" "u" (some 6000) 100).2.2.1 ATMError.insufficientFunds
      rfl,
   (errors_leave_world_unchanged worldEx "1001" "9999" "0000" "5678" "5678"
      "Mallory" "9999" "t" "u" (some 10) 100).2.2.2.1 ATMError.unknownDestination
      rfl,
   (errors_leave_world_unchanged worldEx "1001" "9999" "0000" "5678" "5678"
      "Mallory" "9999" "t" "u" (some 10) 100).2.2.2.2 ATMError.wrongPin rfl⟩
